import Mathlib

/-! Formal model of the PTY session server in
`src/examples/web-agent/rat/src/main.rs`: the session registry `SESSIONS`,
the ownership claim performed by `handle_shell_socket`, the bounded relay
channels of the I/O bridge, the inbound WebSocket-to-PTY loop,
`stop_session`, `list_sessions`, `execute_command`, the SSE loop of
`execute_command_stream`, and the `ws_url` computation of `create_session`.
Machine integers do not overflow in any modelled computation, so byte
chunks are `List Nat` and exit codes are `Int`. -/

namespace RatServer

/-- Model of the Rust struct `PtySession` (main.rs lines 29-33): the id,
the `master_taken` ownership flag, and the state of the `pty_pair`,
abstracted to whether the writer of the master end is still inside the
pair (`take_writer` moves it out; `try_clone_reader` only clones). -/
structure PtySession where
  id : String
  masterTaken : Bool
  writerPresent : Bool
deriving DecidableEq

/-- Model of the global map `SESSIONS : HashMap<String, Arc<Mutex<PtySession>>>`
(main.rs line 26) as an association list keyed by session id; the HashMap
holds at most one entry per key, and the operations below mirror `get`,
in-place mutation behind the per-session `Mutex`, and `remove`. -/
abbrev Registry := List (String × PtySession)

/-- Model of `SESSIONS.lock().unwrap().get(&session_id).cloned()`
(main.rs lines 198-201). -/
def lookupS : Registry → String → Option PtySession
  | [], _ => none
  | (k, v) :: rest, sid => if k = sid then some v else lookupS rest sid

/-- Replacement of the session stored under `sid`: models mutation of the
`PtySession` behind its own `Mutex`, as `handle_shell_socket` performs it
inside one `session.lock()` critical section (main.rs lines 214-226). -/
def updateS : Registry → String → PtySession → Registry
  | [], _, _ => []
  | (k, v) :: rest, sid, s =>
    if k = sid then (k, s) :: updateS rest sid s
    else (k, v) :: updateS rest sid s

/-- Model of `SESSIONS.lock().unwrap().remove(&session_id)` on the entries
(main.rs line 179). -/
def removeS : Registry → String → Registry
  | [], _ => []
  | (k, v) :: rest, sid =>
    if k = sid then removeS rest sid else (k, v) :: removeS rest sid

/-- Outcome of the attach phase of `handle_shell_socket` (main.rs lines
197-226): `notFound` is the early return when the id is not in `SESSIONS`
(line 206), `alreadyTaken` the early return when `master_taken` is already
set (line 218) -- the handler returns at once, before touching the
`pty_pair`, so it takes no endpoint and blocks on nothing -- and `attached`
the successful claim that sets the flag, clones the PTY reader and takes
the PTY writer. -/
inductive AttachResult
  | notFound
  | alreadyTaken
  | attached
deriving DecidableEq

/-- Registry effect and outcome of the attach phase of
`handle_shell_socket` (main.rs lines 197-226). The check of `master_taken`
and the write `master_taken = true` both happen inside the single
`session.lock().unwrap()` critical section of lines 215-226, so the model
performs them as one atomic step; concurrent attach attempts interleave as
sequences of such steps. -/
def handleAttach (reg : Registry) (sid : String) : Registry × AttachResult :=
  match lookupS reg sid with
  | none => (reg, .notFound)
  | some s =>
    if s.masterTaken then (reg, .alreadyTaken)
    else (updateS reg sid { s with masterTaken := true, writerPresent := false }, .attached)

/-- Registry effect of a whole `handle_shell_socket` call: after the attach
phase, the relay threads, the two tokio tasks and the final `tokio::join!`
(main.rs lines 228-298) never access `SESSIONS`, so the only registry
effect of the handler -- including after its bridge terminates -- is the
attach step itself. In particular the handler never removes the entry and
never clears `master_taken`. -/
def handleShellSocketReg (reg : Registry) (sid : String) : Registry :=
  (handleAttach reg sid).1

/-- Fold of a sequence of attach attempts (one `handle_shell_socket`
upgrade per requested session id) over the registry. -/
def runAttaches (reg : Registry) : List String → Registry
  | [] => reg
  | sid :: rest => runAttaches (handleAttach reg sid).1 rest

/-- Number of attach attempts for `sid` in a request sequence that succeed,
that is, that claim the PTY endpoints. -/
def attachedCount (reg : Registry) : List String → String → Nat
  | [], _ => 0
  | r :: rest, sid =>
    (if r = sid ∧ (handleAttach reg r).2 = .attached then 1 else 0)
      + attachedCount (handleAttach reg r).1 rest sid

/-- Outcome of `stop_session` (main.rs lines 175-184): the JSON answer
`{"status": "stopped"}` or the 404 `Session not found`. -/
inductive StopResult
  | stopped
  | notFound
deriving DecidableEq

/-- Model of `stop_session` (main.rs lines 175-184): remove the entry if
one is present and answer `stopped`, else answer `notFound`. The handler
performs nothing besides the map removal: it calls no kill, closes no
descriptor and signals no running bridge. -/
def stopSession (reg : Registry) (sid : String) : Registry × StopResult :=
  if (lookupS reg sid).isSome then (removeS reg sid, .stopped)
  else (reg, .notFound)

/-- Resource effect of the map removal in `stop_session`, from Rust drop
semantics. Removing the entry drops only the registry clone of the
`Arc<Mutex<PtySession>>`; the `PtyPair` (and with it the controlling
terminal whose hangup is what ends the shell -- no child handle is
retained, line 132 discards it) is dropped exactly when the last clone
goes away. `handle_shell_socket` holds a clone of the `Arc`, and its
writer thread holds the taken PTY writer, for the whole life of the
bridge, so removal releases the resources of the session precisely when
no bridge still holds a clone. -/
def stopReleasesResources (bridgeHoldsClone : Bool) : Bool :=
  !bridgeHoldsClone

/-- Model of the serialized `SessionInfo` (main.rs lines 82-86). -/
structure SessionInfo where
  id : String
  active : Bool
deriving DecidableEq

/-- Model of `list_sessions` (main.rs lines 162-172): one summary per key
of the map, with the `active` field hard-coded to `true`. -/
def list_sessions (reg : Registry) : List SessionInfo :=
  reg.map fun p => { id := p.1, active := true }

/-- Model of the `ws_url` computation in `create_session` (main.rs lines
146-151). The configured bind host and port (`Args.host`, `Args.port`,
in scope in the program) are passed in to express that the computation
never consults them: the fallback branch hard-codes `ws://localhost:3000`
and the other branch rewrites the public tunnel URL. -/
def wsUrl (publicUrl : Option String) (host : String) (port : Nat)
    (sessionId : String) : String :=
  match publicUrl with
  | some url => (url.replace "http" "ws") ++ "/shell/" ++ sessionId
  | none => "ws://localhost:3000/shell/" ++ sessionId

/-- Capacity of the two `mpsc::channel::<Vec<u8>>` hand-off queues of the
bridge (main.rs lines 229-230). -/
def chanCapacity : Nat := 100

/-- State of one relay direction of the bridge: the byte chunks the source
has yet to produce (for the outbound direction, the `read` calls of the
PTY reader thread, lines 233-247), the chunks sitting in the bounded
channel, and the chunks the destination has taken out (for the outbound
direction, the binary WebSocket messages of lines 264-271). -/
structure RelayState where
  pending : List (List Nat)
  queue : List (List Nat)
  delivered : List (List Nat)
deriving DecidableEq

/-- One step of a relay direction. `produce` is `blocking_send` on the
thread side or `send(..).await` on the transport side: it appends the next
chunk to the channel and is enabled only while the channel holds fewer
than `chanCapacity` chunks -- a full channel blocks (or suspends) the
producer, it never drops the chunk. `consume` is `recv().await` or
`blocking_recv`: it moves the front chunk of the channel to the
destination. -/
inductive RelayStep : RelayState → RelayState → Prop
  | produce (c : List Nat) (p q d : List (List Nat)) :
      q.length < chanCapacity →
      RelayStep ⟨c :: p, q, d⟩ ⟨p, q ++ [c], d⟩
  | consume (c : List Nat) (p q d : List (List Nat)) :
      RelayStep ⟨p, c :: q, d⟩ ⟨p, q, d ++ [c]⟩

/-- Finitely many relay steps. -/
inductive RelayReach : RelayState → RelayState → Prop
  | refl (s : RelayState) : RelayReach s s
  | tail {s t u : RelayState} : RelayReach s t → RelayStep t u → RelayReach s u

/-- WebSocket messages as the inbound loop of `handle_shell_socket`
matches them (main.rs lines 276-290). A text frame is represented by the
byte list of its UTF-8 contents: `String::into_bytes` returns exactly the
underlying bytes of the string, without re-encoding, so forwarding a text
frame is the identity on those bytes. `other` stands for the remaining
frame kinds (ping, pong), which the catch-all arm of line 289 ignores. -/
inductive WsMsg
  | binary (data : List Nat)
  | text (bytes : List Nat)
  | close
  | other
deriving DecidableEq

/-- Model of the inbound relay loop, WebSocket to PTY (main.rs lines
275-293). The input list models the successive results of
`ws_rx.next().await`: an `Except.error` element is `Some(Err(_))` and the
end of the list is `None` (the transport closed); `while let Some(Ok(msg))`
ends the loop on either. `budget` is the number of `ws_to_pty_tx.send`
calls that still succeed: the channel fails permanently once the PTY
writer thread (lines 250-260) has exited after a failed PTY write, and a
failed send breaks the loop without forwarding the chunk. The result is
the list of byte chunks handed to the PTY write end, in order. -/
def inboundLoop : List (Except Unit WsMsg) → Nat → List (List Nat)
  | [], _ => []
  | .error _ :: _, _ => []
  | .ok .close :: _, _ => []
  | .ok (.binary d) :: rest, budget =>
    match budget with
    | 0 => []
    | b + 1 => d :: inboundLoop rest b
  | .ok (.text bs) :: rest, budget =>
    match budget with
    | 0 => []
    | b + 1 => bs :: inboundLoop rest b
  | .ok .other :: rest, budget => inboundLoop rest budget

/-- Modelled from the spec sentence on the inbound direction: the byte
chunks that should reach the PTY write end are the binary payloads and the
text bytes, verbatim and in order, of the messages received before the
first transport error or close frame. Compared against `inboundLoop`. -/
def relayedSpec : List (Except Unit WsMsg) → List (List Nat)
  | [] => []
  | .error _ :: _ => []
  | .ok .close :: _ => []
  | .ok (.binary d) :: rest => d :: relayedSpec rest
  | .ok (.text bs) :: rest => bs :: relayedSpec rest
  | .ok .other :: rest => relayedSpec rest

/-- Model of `std::process::Output` as `execute_command` consumes it
(main.rs lines 370-379): the exit status as `code()` reports it (`some c`
on a normal exit with code `c`, `none` when a signal terminated the
child), and the captured stdout and stderr after the UTF-8-lossy decoding
of lines 378-379. -/
structure ProcOutput where
  exitCode : Option Int
  stdout : String
  stderr : String
deriving DecidableEq

/-- Model of `ExitStatus::success()`: true exactly on a normal exit with
code 0. -/
def statusSuccess (exitCode : Option Int) : Bool :=
  decide (exitCode = some 0)

/-- Model of the serialized `CommandResponse` (main.rs lines 62-67). -/
structure CommandResponse where
  success : Bool
  output : String
  error : Option String
deriving DecidableEq

/-- Model of the response construction of `execute_command` (main.rs lines
378-387): `success` is `output.status.success()`, `output` the decoded
stdout, and `error` is `None` exactly when the decoded stderr is the empty
string (`stderr.is_empty()`), independently of the exit status. -/
def execute_command (o : ProcOutput) : CommandResponse :=
  { success := statusSuccess o.exitCode
  , output := o.stdout
  , error := if o.stderr = "" then none else some o.stderr }

/-- Events of the SSE stream of `execute_command_stream` (main.rs lines
426-469): a stdout line, a stderr line, the final exit-code line, or an
error line. -/
inductive StreamEvent
  | stdoutLine (l : String)
  | stderrLine (l : String)
  | exitCode (c : Int)
  | errorLine
deriving DecidableEq

/-- State of the `tokio::select!` loop of `execute_command_stream` (main.rs
lines 430-457): the lines remaining on the stdout and stderr pipes of the
child. Once a pipe hits end-of-file, `next_line()` returns `Ok(None)`
immediately and forever. -/
structure StreamLoopState where
  outLines : List String
  errLines : List String
deriving DecidableEq

/-- Result of one iteration of the `select!` loop in an execution without
read errors: a branch got `Ok(Some(line))` and yields an event (`emit`),
or it got `Ok(None)` and its body `{}` does nothing (`skip`). `brk` stands
for leaving the loop: the code reaches `break` only from the two
`Err(e)` arms or from the `else` branch, and the `else` branch of a
`select!` runs only when every branch is disabled by a pattern mismatch --
the patterns here are the irrefutable `result = ...`, so it never runs. -/
inductive LoopStepResult
  | emit (e : StreamEvent) (s : StreamLoopState)
  | skip (s : StreamLoopState)
  | brk
deriving DecidableEq

/-- One iteration of the `select!` loop: `pick` is the branch the macro
polled first (true = the stdout branch), the choice `select!` makes
pseudo-randomly at each iteration. -/
def loopStep (pick : Bool) (s : StreamLoopState) : LoopStepResult :=
  if pick then
    match s.outLines with
    | l :: rest => .emit (.stdoutLine l) { s with outLines := rest }
    | [] => .skip s
  else
    match s.errLines with
    | l :: rest => .emit (.stderrLine l) { s with errLines := rest }
    | [] => .skip s

/-- Run of the loop under a finite schedule of branch choices, collecting
the events the stream yields. The loop has no break in an error-free
execution, so every finite prefix of its (unending) run is described by
some schedule. -/
def runLoop : List Bool → StreamLoopState → List StreamEvent × StreamLoopState
  | [], s => ([], s)
  | pick :: sched, s =>
    match loopStep pick s with
    | .emit e s' =>
      let r := runLoop sched s'
      (e :: r.1, r.2)
    | .skip s' => runLoop sched s'
    | .brk => ([], s)

/-- Model of the code after the loop (main.rs lines 460-468): the event the
stream yields once `child.wait()` returns, a point the control flow reaches
only if the loop breaks. -/
def finalEvent : Except Unit (Option Int) → StreamEvent
  | .ok st => .exitCode (st.getD (-1))
  | .error _ => .errorLine

/-- Updating the entry of one key leaves the lookup of any other key as it
was. -/
theorem lookupS_updateS_ne (reg : Registry) (sid k : String) (s : PtySession)
    (h : k ≠ sid) : lookupS (updateS reg sid s) k = lookupS reg k := by
  induction reg with
  | nil => rfl
  | cons p rest ih =>
    obtain ⟨k0, v⟩ := p
    by_cases hk : k0 = sid
    · subst hk
      have hkk : ¬ (k0 = k) := fun hh => h (hh ▸ rfl)
      simp [updateS, lookupS, hkk, ih]
    · simp only [updateS, if_neg hk, lookupS, ih]

/-- Updating a present key makes its lookup return the new session. -/
theorem lookupS_updateS_eq (reg : Registry) (sid : String) (s0 s : PtySession)
    (h : lookupS reg sid = some s0) :
    lookupS (updateS reg sid s) sid = some s := by
  induction reg with
  | nil => simp [lookupS] at h
  | cons p rest ih =>
    obtain ⟨k0, v⟩ := p
    by_cases hk : k0 = sid
    · subst hk
      simp [updateS, lookupS]
    · simp only [lookupS, if_neg hk] at h
      simp only [updateS, if_neg hk, lookupS, if_neg hk]
      exact ih h

/-- A removed key looks up to nothing. -/
theorem lookupS_removeS (reg : Registry) (sid : String) :
    lookupS (removeS reg sid) sid = none := by
  induction reg with
  | nil => rfl
  | cons p rest ih =>
    obtain ⟨k0, v⟩ := p
    by_cases hk : k0 = sid
    · simp only [removeS, if_pos hk]
      exact ih
    · simp only [removeS, if_neg hk, lookupS, if_neg hk]
      exact ih

/-- Attach on an absent id answers `notFound` and changes nothing. -/
theorem handleAttach_of_lookup_none {reg : Registry} {sid : String}
    (h : lookupS reg sid = none) :
    handleAttach reg sid = (reg, AttachResult.notFound) := by
  simp [handleAttach, h]

/-- Attach on a claimed session answers `alreadyTaken` and changes
nothing. -/
theorem handleAttach_of_taken {reg : Registry} {sid : String} {s : PtySession}
    (h : lookupS reg sid = some s) (ht : s.masterTaken = true) :
    handleAttach reg sid = (reg, AttachResult.alreadyTaken) := by
  simp [handleAttach, h, ht]

/-- Attach on an unclaimed session sets the flag, takes the writer out of
the pair and answers `attached`. -/
theorem handleAttach_of_free {reg : Registry} {sid : String} {s : PtySession}
    (h : lookupS reg sid = some s) (ht : s.masterTaken = false) :
    handleAttach reg sid
      = (updateS reg sid { s with masterTaken := true, writerPresent := false },
         AttachResult.attached) := by
  simp [handleAttach, h, ht]

/-- Once a session is claimed, no attach attempt (for this or any other id)
changes its stored entry: the flag is never reset. -/
theorem lookupS_handleAttach_of_taken (reg : Registry) (r sid : String)
    (s : PtySession) (hs : lookupS reg sid = some s) (ht : s.masterTaken = true) :
    lookupS (handleAttach reg r).1 sid = some s := by
  cases hr : lookupS reg r with
  | none => rw [handleAttach_of_lookup_none hr]; exact hs
  | some t =>
    cases htk : t.masterTaken with
    | true => rw [handleAttach_of_taken hr htk]; exact hs
    | false =>
      rw [handleAttach_of_free hr htk]
      by_cases hrs : sid = r
      · subst hrs
        rw [hr] at hs
        injection hs with e
        rw [e, ht] at htk
        simp at htk
      · exact (lookupS_updateS_ne reg r sid _ hrs).trans hs

/-- Once a session is claimed, its entry survives any sequence of attach
attempts unchanged. -/
theorem lookupS_runAttaches_of_taken (reqs : List String) (reg : Registry)
    (sid : String) (s : PtySession)
    (hs : lookupS reg sid = some s) (ht : s.masterTaken = true) :
    lookupS (runAttaches reg reqs) sid = some s := by
  induction reqs generalizing reg with
  | nil => exact hs
  | cons r rest ih =>
    simp only [runAttaches]
    exact ih _ (lookupS_handleAttach_of_taken reg r sid s hs ht)

/-- Once a session is claimed, no later attach attempt for it succeeds. -/
theorem attachedCount_zero (reqs : List String) (reg : Registry)
    (sid : String) (s : PtySession)
    (hs : lookupS reg sid = some s) (ht : s.masterTaken = true) :
    attachedCount reg reqs sid = 0 := by
  induction reqs generalizing reg with
  | nil => rfl
  | cons r rest ih =>
    simp only [attachedCount]
    have hnext := lookupS_handleAttach_of_taken reg r sid s hs ht
    by_cases he : r = sid
    · subst he
      rw [handleAttach_of_taken hs ht]
      simpa using ih reg hs
    · rw [if_neg (fun hc => he hc.1)]
      simpa using ih _ hnext

/-- At most one attach attempt in any request sequence claims a given
session. -/
theorem attachedCount_le_one (reqs : List String) (reg : Registry)
    (sid : String) : attachedCount reg reqs sid ≤ 1 := by
  induction reqs generalizing reg with
  | nil => exact Nat.zero_le 1
  | cons r rest ih =>
    simp only [attachedCount]
    cases hr : lookupS reg r with
    | none =>
      rw [handleAttach_of_lookup_none hr]
      have : ¬ (r = sid ∧ AttachResult.notFound = AttachResult.attached) := by
        rintro ⟨-, h⟩; cases h
      simpa [this] using ih reg
    | some s =>
      cases htk : s.masterTaken with
      | true =>
        rw [handleAttach_of_taken hr htk]
        have : ¬ (r = sid ∧ AttachResult.alreadyTaken = AttachResult.attached) := by
          rintro ⟨-, h⟩; cases h
        simpa [this] using ih reg
      | false =>
        rw [handleAttach_of_free hr htk]
        by_cases he : r = sid
        · subst he
          have hlook : lookupS
              (updateS reg r { s with masterTaken := true, writerPresent := false }) r
              = some { s with masterTaken := true, writerPresent := false } :=
            lookupS_updateS_eq reg r s _ hr
          have hzero := attachedCount_zero rest _ r _ hlook rfl
          simp [hzero]
        · rw [if_neg (fun hc => he hc.1)]
          simpa using ih _

/-- C1: the `master_taken` flag of a session transitions false to true at
most once -- in any sequence of attach attempts at most one succeeds for a
given id, and an attach attempt never resets the flag of a claimed
session -- the check and the set being one atomic step under the session
lock; and while a claim is active, an attach attempt for the same id
answers `alreadyTaken` at once, leaving the registry (and hence the PTY
endpoints the first bridge holds) untouched and taking no endpoint. -/
theorem attach_claim_at_most_once (reg : Registry) (reqs : List String)
    (sid : String) :
    attachedCount reg reqs sid ≤ 1 ∧
    (∀ r s, lookupS reg sid = some s → s.masterTaken = true →
      lookupS (handleAttach reg r).1 sid = some s) ∧
    (∀ s, lookupS reg sid = some s → s.masterTaken = true →
      handleAttach reg sid = (reg, AttachResult.alreadyTaken)) :=
  ⟨attachedCount_le_one reqs reg sid,
   fun r s hs ht => lookupS_handleAttach_of_taken reg r sid s hs ht,
   fun _ hs ht => handleAttach_of_taken hs ht⟩

/-- C2 (amended): `stop_session` answers `stopped` exactly when an entry
with the id existed (`notFound` exactly otherwise) and removes the entry;
but the removal itself releases the resources of the session -- the drop
of the `PtyPair` closing both endpoints, the resulting hangup ending the
shell -- only when no bridge still holds a clone of the session, since the
handler performs no kill and no close of its own. -/
theorem stop_session_spec (reg : Registry) (sid : String) :
    ((stopSession reg sid).2 = StopResult.stopped ↔ (lookupS reg sid).isSome = true) ∧
    ((stopSession reg sid).2 = StopResult.notFound ↔ lookupS reg sid = none) ∧
    lookupS (stopSession reg sid).1 sid = none ∧
    (∀ b, stopReleasesResources b = true ↔ b = false) := by
  have hrel : ∀ b, stopReleasesResources b = true ↔ b = false := by
    intro b; cases b <;> simp [stopReleasesResources]
  cases hl : lookupS reg sid with
  | none => refine ⟨?_, ?_, ?_, hrel⟩ <;> simp [stopSession, hl]
  | some s => refine ⟨?_, ?_, ?_, hrel⟩ <;> simp [stopSession, hl, lookupS_removeS]

/-- C2 counterexample: the session `"s"` exists and is attached to a live
bridge, which holds a clone of its `Arc` and the taken PTY writer.
`stop_session` answers `stopped`, yet the removal releases nothing: no
kill and no close happens, and the drop of the registry clone frees
nothing while the bridge holds another clone -- the shell keeps running
and both PTY endpoints stay open. -/
theorem stop_session_no_release_cex :
    (stopSession [("s", ⟨"s", true, false⟩)] "s").2 = StopResult.stopped ∧
    stopReleasesResources true = false :=
  ⟨by decide, rfl⟩

/-- C5: when an attach claims a session, the completion of the whole
handler (whose bridge never touches the registry) leaves the entry in the
registry with `master_taken` still set; therefore after the bridge of the
session terminates, every later attach attempt for the id -- after any
interleaving of further attach attempts -- answers `alreadyTaken`, and
only an explicit `stop_session` removes the entry. -/
theorem session_persists_after_bridge (reg : Registry) (sid : String)
    (s : PtySession) (hs : lookupS reg sid = some s) (ht : s.masterTaken = false) :
    lookupS (handleShellSocketReg reg sid) sid
      = some { s with masterTaken := true, writerPresent := false } ∧
    (∀ reqs, handleAttach (runAttaches (handleShellSocketReg reg sid) reqs) sid
        = (runAttaches (handleShellSocketReg reg sid) reqs, AttachResult.alreadyTaken)) ∧
    (stopSession (handleShellSocketReg reg sid) sid).2 = StopResult.stopped ∧
    lookupS (stopSession (handleShellSocketReg reg sid) sid).1 sid = none := by
  have hreg : handleShellSocketReg reg sid
      = updateS reg sid { s with masterTaken := true, writerPresent := false } := by
    unfold handleShellSocketReg
    rw [handleAttach_of_free hs ht]
  have hlook : lookupS (handleShellSocketReg reg sid) sid
      = some { s with masterTaken := true, writerPresent := false } := by
    rw [hreg]; exact lookupS_updateS_eq reg sid s _ hs
  refine ⟨hlook, ?_, ?_, ?_⟩
  · intro reqs
    have hkeep := lookupS_runAttaches_of_taken reqs _ sid _ hlook rfl
    exact handleAttach_of_taken hkeep rfl
  · simp [stopSession, hlook]
  · simp only [stopSession, hlook, Option.isSome_some, if_pos]
    exact lookupS_removeS _ sid

/-- C5 witness: a one-session registry, attached once; the entry persists
with the flag set, later attaches are rejected, an explicit stop removes
it. -/
theorem session_persists_after_bridge_witness :
    lookupS (handleShellSocketReg [("a", ⟨"a", false, true⟩)] "a") "a"
      = some ⟨"a", true, false⟩ ∧
    (∀ reqs, handleAttach
          (runAttaches (handleShellSocketReg [("a", ⟨"a", false, true⟩)] "a") reqs) "a"
        = (runAttaches (handleShellSocketReg [("a", ⟨"a", false, true⟩)] "a") reqs,
           AttachResult.alreadyTaken)) ∧
    (stopSession (handleShellSocketReg [("a", ⟨"a", false, true⟩)] "a") "a").2
      = StopResult.stopped ∧
    lookupS (stopSession (handleShellSocketReg [("a", ⟨"a", false, true⟩)] "a") "a").1 "a"
      = none :=
  session_persists_after_bridge [("a", ⟨"a", false, true⟩)] "a" ⟨"a", false, true⟩
    (by decide) rfl

/-- C8: a session id that is absent from the registry -- never created, or
removed -- is reported `NotFound` everywhere: the attach handler returns at
once without claiming anything or changing the registry, `stop_session`
answers the 404, and a removed id always looks up to nothing. -/
theorem missing_session_not_found (reg : Registry) (sid : String)
    (h : lookupS reg sid = none) :
    handleAttach reg sid = (reg, AttachResult.notFound) ∧
    stopSession reg sid = (reg, StopResult.notFound) ∧
    (∀ r k, lookupS (removeS r k) k = none) :=
  ⟨handleAttach_of_lookup_none h,
   by simp [stopSession, h],
   fun r k => lookupS_removeS r k⟩

/-- C8 witness: the empty registry with an arbitrary id. -/
theorem missing_session_not_found_witness :
    handleAttach [] "x" = ([], AttachResult.notFound) ∧
    stopSession [] "x" = ([], StopResult.notFound) ∧
    (∀ r k, lookupS (removeS r k) k = none) :=
  missing_session_not_found [] "x" rfl

/-- One relay step conserves the chunk sequence: delivered, queued and
pending chunks always concatenate to the same list, so nothing is dropped,
duplicated or reordered. -/
theorem relayStep_conserves {s t : RelayState} (h : RelayStep s t) :
    t.delivered ++ t.queue ++ t.pending = s.delivered ++ s.queue ++ s.pending := by
  cases h with
  | produce c p q d hlt => simp
  | consume c p q d => simp

/-- One relay step keeps the channel within its capacity. -/
theorem relayStep_capacity {s t : RelayState} (h : RelayStep s t)
    (hs : s.queue.length ≤ chanCapacity) : t.queue.length ≤ chanCapacity := by
  cases h with
  | produce c p q d hlt => simpa using hlt
  | consume c p q d => simp at hs ⊢; omega

/-- Conservation along any number of relay steps. -/
theorem relayReach_conserves {s t : RelayState} (h : RelayReach s t) :
    t.delivered ++ t.queue ++ t.pending = s.delivered ++ s.queue ++ s.pending := by
  induction h with
  | refl => rfl
  | tail hr hs ih => rw [relayStep_conserves hs, ih]

/-- Capacity bound along any number of relay steps. -/
theorem relayReach_capacity {s t : RelayState} (h : RelayReach s t)
    (hs : s.queue.length ≤ chanCapacity) : t.queue.length ≤ chanCapacity := by
  induction h with
  | refl => exact hs
  | tail hr hstep ih => exact relayStep_capacity hstep ih

/-- C3: in each relay direction the hand-off channel is bounded by its
capacity of 100 chunks in every reachable state; the chunk sequence is
conserved in order (no chunk is ever dropped), so when the source is
exhausted and the channel drained, the bytes delivered at the destination
are exactly the concatenation, in production order, of the chunks produced
at the source, whatever the chunk boundaries; and from a state whose
channel is full no step consumes from the source -- the producer can only
block until the consumer makes room. -/
theorem relay_bounded_ordered (chunks : List (List Nat)) (t : RelayState)
    (h : RelayReach ⟨chunks, [], []⟩ t) :
    chanCapacity = 100 ∧
    t.queue.length ≤ chanCapacity ∧
    t.delivered ++ t.queue ++ t.pending = chunks ∧
    (t.pending = [] → t.queue = [] → t.delivered.flatten = chunks.flatten) ∧
    (∀ u, RelayStep t u → t.queue.length = chanCapacity → u.pending = t.pending) := by
  have hcons : t.delivered ++ t.queue ++ t.pending = chunks := by
    simpa using relayReach_conserves h
  refine ⟨rfl, relayReach_capacity h (by simp), hcons, ?_, ?_⟩
  · intro hp hq
    rw [hp, hq] at hcons
    simpa using congrArg List.flatten hcons
  · intro u hu hfull
    cases hu with
    | produce c p q d hlt =>
      exact absurd hfull (by simpa using Nat.ne_of_lt hlt)
    | consume c p q d => rfl

/-- C3 witness: the trace that produces the chunks `[1, 2]` and `[3]`,
interleaved with their consumption, ending with source and channel empty
and both chunks delivered in order. -/
theorem relay_bounded_ordered_witness :
    chanCapacity = 100 ∧
    (RelayState.mk [] [] [[1, 2], [3]]).queue.length ≤ chanCapacity ∧
    (RelayState.mk [] [] [[1, 2], [3]]).delivered
        ++ (RelayState.mk [] [] [[1, 2], [3]]).queue
        ++ (RelayState.mk [] [] [[1, 2], [3]]).pending = [[1, 2], [3]] ∧
    ((RelayState.mk [] [] [[1, 2], [3]]).pending = [] →
      (RelayState.mk [] [] [[1, 2], [3]]).queue = [] →
      (RelayState.mk [] [] [[1, 2], [3]]).delivered.flatten = [[1, 2], [3]].flatten) ∧
    (∀ u, RelayStep (RelayState.mk [] [] [[1, 2], [3]]) u →
      (RelayState.mk [] [] [[1, 2], [3]]).queue.length = chanCapacity →
      u.pending = (RelayState.mk [] [] [[1, 2], [3]]).pending) :=
  relay_bounded_ordered [[1, 2], [3]] (RelayState.mk [] [] [[1, 2], [3]])
    (RelayReach.tail
      (RelayReach.tail
        (RelayReach.tail
          (RelayReach.tail (RelayReach.refl _)
            (RelayStep.produce [1, 2] [[3]] [] [] (by decide)))
          (RelayStep.consume [1, 2] [[3]] [] []))
        (RelayStep.produce [3] [] [] [[1, 2]] (by decide)))
      (RelayStep.consume [3] [] [] [[1, 2]]))

/-- Appending input after a close frame never changes what the inbound
loop forwards: the close frame ends the loop. -/
theorem inboundLoop_close_ends (pre post : List (Except Unit WsMsg)) (b : Nat) :
    inboundLoop (pre ++ Except.ok WsMsg.close :: post) b
      = inboundLoop (pre ++ [Except.ok WsMsg.close]) b := by
  induction pre generalizing b with
  | nil => rfl
  | cons m rest ih =>
    cases m with
    | error e => rfl
    | ok w =>
      cases w with
      | binary d =>
        cases b with
        | zero => rfl
        | succ k => simpa [inboundLoop] using ih k
      | text bs =>
        cases b with
        | zero => rfl
        | succ k => simpa [inboundLoop] using ih k
      | close => rfl
      | other => simpa [inboundLoop] using ih b

/-- With enough send budget the inbound loop forwards exactly the data
bytes of the spec. -/
theorem inboundLoop_eq_relayedSpec (msgs : List (Except Unit WsMsg)) (budget : Nat)
    (h : (relayedSpec msgs).length ≤ budget) :
    inboundLoop msgs budget = relayedSpec msgs := by
  induction msgs generalizing budget with
  | nil => rfl
  | cons m rest ih =>
    cases m with
    | error e => rfl
    | ok w =>
      cases w with
      | binary d =>
        cases budget with
        | zero => simp [relayedSpec] at h
        | succ k =>
          simp only [relayedSpec, List.length_cons, Nat.succ_le_succ_iff] at h
          simp only [inboundLoop, relayedSpec, ih k h]
      | text bs =>
        cases budget with
        | zero => simp [relayedSpec] at h
        | succ k =>
          simp only [relayedSpec, List.length_cons, Nat.succ_le_succ_iff] at h
          simp only [inboundLoop, relayedSpec, ih k h]
      | close => rfl
      | other =>
        simp only [relayedSpec] at h
        simp only [inboundLoop, relayedSpec, ih budget h]

/-- C4: the inbound relay loop forwards every binary payload and the raw
UTF-8 bytes of every text frame verbatim and in order to the PTY write
end (whenever the channel accepts them, which it does while the PTY
writer thread lives); a close frame ends the loop, whatever follows it;
the loop also ends when the transport closes (the input list ends) or
errors; and when a send to the PTY side fails the loop stops forwarding
at once. -/
theorem inbound_loop_forwards (msgs : List (Except Unit WsMsg)) (budget : Nat)
    (h : (relayedSpec msgs).length ≤ budget) :
    inboundLoop msgs budget = relayedSpec msgs ∧
    (∀ pre post b, inboundLoop (pre ++ Except.ok WsMsg.close :: post) b
        = inboundLoop (pre ++ [Except.ok WsMsg.close]) b) ∧
    (∀ d rest, inboundLoop (Except.ok (WsMsg.binary d) :: rest) 0 = []) ∧
    (∀ bs rest, inboundLoop (Except.ok (WsMsg.text bs) :: rest) 0 = []) :=
  ⟨inboundLoop_eq_relayedSpec msgs budget h,
   inboundLoop_close_ends,
   fun _ _ => rfl,
   fun _ _ => rfl⟩

/-- C4 witness: a binary frame, a text frame, a ping, a close frame and
then a stray binary frame, with the budget for the two data frames. -/
theorem inbound_loop_forwards_witness :
    inboundLoop [Except.ok (WsMsg.binary [7]), Except.ok (WsMsg.text [104, 105]),
        Except.ok WsMsg.other, Except.ok WsMsg.close, Except.ok (WsMsg.binary [9])] 2
      = relayedSpec [Except.ok (WsMsg.binary [7]), Except.ok (WsMsg.text [104, 105]),
        Except.ok WsMsg.other, Except.ok WsMsg.close, Except.ok (WsMsg.binary [9])] ∧
    (∀ pre post b, inboundLoop (pre ++ Except.ok WsMsg.close :: post) b
        = inboundLoop (pre ++ [Except.ok WsMsg.close]) b) ∧
    (∀ d rest, inboundLoop (Except.ok (WsMsg.binary d) :: rest) 0 = []) ∧
    (∀ bs rest, inboundLoop (Except.ok (WsMsg.text bs) :: rest) 0 = []) :=
  inbound_loop_forwards [Except.ok (WsMsg.binary [7]), Except.ok (WsMsg.text [104, 105]),
      Except.ok WsMsg.other, Except.ok WsMsg.close, Except.ok (WsMsg.binary [9])] 2
    (by decide)

/-- C6 (amended): `success` is true exactly on a normal exit with code 0,
so every nonzero exit yields `success: false`; `output` is the captured
stdout; and `error` is absent exactly when the captured stderr is empty --
also on a failing command, so a nonzero exit with silent stderr carries no
error field, and the error field equals the stderr whenever stderr is
non-empty. -/
theorem execute_command_spec (o : ProcOutput) :
    ((execute_command o).success = true ↔ o.exitCode = some 0) ∧
    (∀ c : Int, o.exitCode = some c → c ≠ 0 → (execute_command o).success = false) ∧
    (execute_command o).output = o.stdout ∧
    ((execute_command o).error = none ↔ o.stderr = "") ∧
    (o.stderr ≠ "" → (execute_command o).error = some o.stderr) := by
  refine ⟨?_, ?_, rfl, ?_, ?_⟩
  · simp [execute_command, statusSuccess]
  · intro c hc hne
    simp [execute_command, statusSuccess, hc, hne]
  · by_cases he : o.stderr = "" <;> simp [execute_command, he]
  · intro he
    simp [execute_command, he]

/-- C6 counterexample: a child exiting with the nonzero code 1 and an
empty stderr (such as `false` run with no arguments). The response has
`success: false` as claimed, but its `error` field is `None` -- not a
non-empty string -- because `execute_command` populates `error` from the
emptiness of stderr alone, never from the exit status. -/
theorem execute_command_silent_failure_cex :
    (execute_command ⟨some 1, "", ""⟩).success = false ∧
    (execute_command ⟨some 1, "", ""⟩).error = none ∧
    (1 : Int) ≠ 0 :=
  ⟨by decide, rfl, by decide⟩

/-- C7 (code evidence): once both pipes of the child are exhausted, every
iteration of the `select!` loop of `execute_command_stream` polls a branch
that returns `Ok(None)`, whose body does nothing; under every schedule the
loop emits no event and stays in the exhausted state, and no iteration
ever leaves the loop (`loopStep` never yields `brk`: the `Err` arms need a
read error, and the `else => break` branch would need every branch
disabled by a pattern mismatch, while the patterns `result = ...` are
irrefutable). So control never reaches `child.wait()` and the final
`exit_code` event is never emitted. -/
theorem stream_loop_never_breaks (sched : List Bool) :
    (runLoop sched ⟨[], []⟩).1 = [] ∧
    (runLoop sched ⟨[], []⟩).2 = ⟨[], []⟩ ∧
    (∀ pick s, loopStep pick s ≠ LoopStepResult.brk) := by
  have hstep : ∀ pick s, loopStep pick s ≠ LoopStepResult.brk := by
    intro pick s
    cases pick <;> cases s with
    | mk outLines errLines =>
      cases outLines <;> cases errLines <;> simp [loopStep]
  have hrun : runLoop sched ⟨[], []⟩ = ([], ⟨[], []⟩) := by
    induction sched with
    | nil => rfl
    | cons pick rest ih => simpa [runLoop, loopStep] using ih
  exact ⟨by rw [hrun], by rw [hrun], hstep⟩

/-- C9: `list_sessions` answers one summary per entry of the registry,
whose ids are exactly the keys of the registry, and the `active` flag of
every summary is the constant `true` -- changing the stored state of every
session in any way (shell exited, bridge gone) changes nothing in the
answer. -/
theorem list_sessions_spec (reg : Registry) :
    (list_sessions reg).length = reg.length ∧
    (∀ info ∈ list_sessions reg, info.active = true) ∧
    (list_sessions reg).map (fun info => info.id) = reg.map (fun p => p.1) ∧
    (∀ f : PtySession → PtySession,
      list_sessions (reg.map fun p => (p.1, f p.2)) = list_sessions reg) := by
  refine ⟨by simp [list_sessions], ?_, by simp [list_sessions], ?_⟩
  · intro info hinfo
    simp only [list_sessions, List.mem_map] at hinfo
    obtain ⟨p, -, hp⟩ := hinfo
    rw [← hp]
  · intro f
    simp [list_sessions]

/-- C10: for a session created while no public URL is set, the connect
address is the literal `ws://localhost:3000/shell/` followed by the
session id, whatever host and port the server was configured to bind --
the computation never reads them. -/
theorem ws_url_ignores_bind_address (host : String) (port : Nat) (sid : String) :
    wsUrl none host port sid = "ws://localhost:3000/shell/" ++ sid ∧
    (∀ host2 port2, wsUrl none host port sid = wsUrl none host2 port2 sid) :=
  ⟨rfl, fun _ _ => rfl⟩

end RatServer
